import Mathlib

/-!
Verification of the training scripts of the dl4ds midterm-challenge
repository (simple_cnn.py, soph_cnn.py, transfer_cnn.py, eval_cifar100.py).

The file shallowly embeds the pieces of original logic of the repository:
the EarlyStopping state machine (transfer_cnn.py), the accuracy-gated
checkpoint branch of the epoch loop (simple_cnn.py and soph_cnn.py,
identical code), the 80/20 train/validation split, the preprocessing
transform pipelines each script wires to its partitions, and the
validate function.  Python floats are modelled as rationals, numpy's
infinity as the `none` value of `Option ℚ`.
-/

/-! ## EarlyStopping (transfer_cnn.py, lines 22-37) -/

/-- State of the EarlyStopping object of transfer_cnn.py.  The field
`min_validation_loss` is `np.inf` at construction; we represent the
extended value line as `Option ℚ` with `none` standing for plus
infinity. -/
structure EarlyStopping where
  tolerance : Nat
  min_delta : ℚ
  counter : Nat
  min_validation_loss : Option ℚ
deriving DecidableEq, Repr

/-- Comparison `x < m` where `m` ranges over the rationals extended with
plus infinity (`none`): every rational is below infinity. -/
def ltInf (x : ℚ) : Option ℚ → Bool
  | none => true
  | some y => decide (x < y)

/-- Comparison `x ≥ m` on the same extended line: no rational is at or
above infinity (this mirrors the float comparison `v >= np.inf` being
false for every finite `v`). -/
def geInf (x : ℚ) : Option ℚ → Bool
  | none => false
  | some y => decide (y ≤ x)

/-- Constructor `EarlyStopping(tolerance, min_delta)`: counter 0 and
`min_validation_loss = np.inf`. -/
def mkEarlyStopping (tolerance : Nat) (min_delta : ℚ) : EarlyStopping :=
  ⟨tolerance, min_delta, 0, none⟩

/-- The method `early_stop_check` of transfer_cnn.py, written as a pure
transition: it returns the boolean result of the call together with the
state of the object after the call.  The `if`/`elif` structure of the
source is kept as is (the final `return False` is reached from both
branches as well as when neither guard fires). -/
def early_stop_check (s : EarlyStopping) (validation_loss : ℚ) :
    Bool × EarlyStopping :=
  if ltInf (validation_loss + s.min_delta) s.min_validation_loss then
    (false, { s with min_validation_loss := some validation_loss, counter := 0 })
  else if geInf (validation_loss + s.min_delta) s.min_validation_loss then
    let c := s.counter + 1
    if s.tolerance ≤ c then
      (true, { s with counter := c })
    else
      (false, { s with counter := c })
  else
    (false, s)

/-- Feeding a list of validation losses through `early_stop_check`,
collecting the returned booleans and the final state. -/
def runEarly : EarlyStopping → List ℚ → List Bool × EarlyStopping
  | s, [] => ([], s)
  | s, v :: vs =>
    let r := early_stop_check s v
    let rest := runEarly r.2 vs
    (r.1 :: rest.1, rest.2)

/-- The booleans returned by a sequence of `early_stop_check` calls. -/
def runOutputs (s : EarlyStopping) (vs : List ℚ) : List Bool :=
  (runEarly s vs).1

/-- The state after a sequence of `early_stop_check` calls. -/
def runState (s : EarlyStopping) (vs : List ℚ) : EarlyStopping :=
  (runEarly s vs).2

/-- C1: the EarlyStopping transition is exactly as specified.  If
`v + min_delta < min_validation_loss` then the best loss is set to `v`,
the counter is reset to 0 and `False` is returned; otherwise the counter
is incremented by one, `True` is returned if and only if the incremented
counter reaches the tolerance, and no other field changes.  The record
equalities show that `tolerance` and `min_delta` are never modified and
that the untouched field keeps its value in each branch. -/
theorem earlyStopCheck_transition (s : EarlyStopping) (v : ℚ) :
    (ltInf (v + s.min_delta) s.min_validation_loss = true →
      early_stop_check s v =
        (false, { s with min_validation_loss := some v, counter := 0 })) ∧
    (ltInf (v + s.min_delta) s.min_validation_loss = false →
      early_stop_check s v =
        (decide (s.tolerance ≤ s.counter + 1), { s with counter := s.counter + 1 })) := by
  obtain ⟨t, δ, c, m⟩ := s
  constructor
  · intro h
    simp [early_stop_check, h]
  · intro h
    cases m with
    | none => simp [ltInf] at h
    | some y =>
      have hy : y ≤ v + δ := by
        have := of_decide_eq_false h
        exact le_of_not_lt this
      have hgef : geInf (v + δ) (some y) = true := by
        simp [geInf, hy]
      by_cases ht : t ≤ c + 1 <;> simp [early_stop_check, h, hgef, ht]

/-- Witness for `earlyStopCheck_transition` at a concrete state and
loss, exercising both branches. -/
theorem earlyStopCheck_transition_witness :
    early_stop_check ⟨3, 0, 0, none⟩ 1 = (false, ⟨3, 0, 0, some 1⟩) ∧
    early_stop_check ⟨3, 0, 2, some 1⟩ 2 = (true, ⟨3, 0, 3, some 1⟩) := by
  constructor
  · exact (earlyStopCheck_transition ⟨3, 0, 0, none⟩ 1).1 rfl
  · have h := (earlyStopCheck_transition ⟨3, 0, 2, some 1⟩ 2).2 (by norm_num [ltInf])
    simpa using h

/-- C4: the scripted scenario.  Feeding the losses
`[1.0, 0.9, 0.95, 0.95, 0.95]` to an instance built with tolerance 3 and
min_delta 0 returns, in order, False, False, False, False, True. -/
theorem earlyStop_scenario :
    runOutputs (mkEarlyStopping 3 0) [1, 9/10, 19/20, 19/20, 19/20] =
      [false, false, false, false, true] := by
  norm_num [runOutputs, runEarly, early_stop_check, mkEarlyStopping, ltInf, geInf]

/-! ## Shared step lemmas for the EarlyStopping transition -/

/-- When the new loss improves on the recorded best (by more than
`min_delta`), the call records the new loss, resets the counter and
returns `False`. -/
theorem early_stop_check_improve (s : EarlyStopping) (v : ℚ)
    (h : ltInf (v + s.min_delta) s.min_validation_loss = true) :
    early_stop_check s v =
      (false, { s with min_validation_loss := some v, counter := 0 }) := by
  simp [early_stop_check, h]

/-- When the new loss does not improve on the recorded best `b`, the
call increments the counter, keeps the best, and returns the comparison
of the incremented counter with the tolerance. -/
theorem early_stop_check_nonimprove (t j : Nat) (δ v b : ℚ) (h : b ≤ v + δ) :
    early_stop_check ⟨t, δ, j, some b⟩ v =
      (decide (t ≤ j + 1), ⟨t, δ, j + 1, some b⟩) := by
  have hlt : ltInf (v + δ) (some b) = false := by
    simp [ltInf, not_lt.mpr h]
  have hge : geInf (v + δ) (some b) = true := by
    simp [geInf, h]
  by_cases ht : t ≤ j + 1 <;> simp [early_stop_check, hlt, hge, ht]

theorem runOutputs_nil (s : EarlyStopping) : runOutputs s [] = [] := rfl

theorem runOutputs_cons (s : EarlyStopping) (v : ℚ) (vs : List ℚ) :
    runOutputs s (v :: vs) =
      (early_stop_check s v).1 :: runOutputs (early_stop_check s v).2 vs := rfl

theorem runState_nil (s : EarlyStopping) : runState s [] = s := rfl

theorem runState_cons (s : EarlyStopping) (v : ℚ) (vs : List ℚ) :
    runState s (v :: vs) = runState (early_stop_check s v).2 vs := rfl

/-! ## C5: constant sequences -/

/-- From a state whose best loss is `some c`, every further call with
the same loss `c` is non-improving (for a nonnegative `min_delta`), so
the outputs of a constant run are the successive comparisons of the
counter with the tolerance. -/
theorem runOutputs_const (t : Nat) (δ c : ℚ) (hδ : 0 ≤ δ) :
    ∀ (k j : Nat),
      runOutputs ⟨t, δ, j, some c⟩ (List.replicate k c) =
        (List.range k).map (fun i => decide (t ≤ j + i + 1)) := by
  intro k
  induction k with
  | zero => intro j; simp [runOutputs_nil]
  | succ n ih =>
    intro j
    have hle : c ≤ c + δ := by linarith
    rw [List.replicate_succ, runOutputs_cons,
      early_stop_check_nonimprove t j δ c c hle]
    rw [ih (j + 1), List.range_succ_eq_map, List.map_cons, List.map_map]
    have harith : ∀ i : Nat, j + 1 + i + 1 = j + (i + 1) + 1 := by omega
    simp [Function.comp, Nat.succ_eq_add_one, harith]

/-- C5 counterexample: the claim as stated is false.  With tolerance 3
and min_delta 0, the constant sequence `[1, 1, 1]` of length equal to
the tolerance never raises the stop signal, because the first call is an
improvement over the initial infinite best loss. -/
theorem earlyStop_const_counterexample :
    (List.replicate 3 (1 : ℚ)).length = 3 ∧
    runOutputs (mkEarlyStopping 3 0) (List.replicate 3 (1 : ℚ)) =
      [false, false, false] ∧
    (runOutputs (mkEarlyStopping 3 0) (List.replicate 3 (1 : ℚ))).any (fun b => b) =
      false := by
  refine ⟨by simp, ?_, ?_⟩ <;>
    norm_num [runOutputs, runEarly, early_stop_check, mkEarlyStopping, ltInf,
      geInf, List.replicate]

/-- C5 amended: for a constant sequence of length `tolerance + 1` fed
from the initial state (with `tolerance ≥ 1` and nonnegative
`min_delta`), the first call sets the baseline and the stop signal is
raised exactly on the last call, the tolerance-th repeated
non-improving value. -/
theorem earlyStop_const_seq (t : Nat) (δ c : ℚ) (ht : 1 ≤ t) (hδ : 0 ≤ δ) :
    runOutputs (mkEarlyStopping t δ) (List.replicate (t + 1) c) =
      List.replicate t false ++ [true] := by
  have hfirst : ltInf (c + δ) (none : Option ℚ) = true := rfl
  rw [List.replicate_succ, runOutputs_cons,
    show mkEarlyStopping t δ = ⟨t, δ, 0, none⟩ from rfl,
    early_stop_check_improve ⟨t, δ, 0, none⟩ c hfirst]
  rw [runOutputs_const t δ c hδ t 0]
  obtain ⟨m, rfl⟩ : ∃ m, t = m + 1 := ⟨t - 1, by omega⟩
  rw [List.range_succ, List.map_append]
  have hmap : (List.range m).map (fun i => decide (m + 1 ≤ 0 + i + 1)) =
      List.replicate m false := by
    refine List.eq_replicate_iff.mpr ⟨by simp, ?_⟩
    intro b hb
    rw [List.mem_map] at hb
    obtain ⟨i, hi, hbi⟩ := hb
    rw [List.mem_range] at hi
    rw [← hbi]
    simp only [decide_eq_false_iff_not]
    omega
  rw [hmap]
  have hlast : decide (m + 1 ≤ 0 + m + 1) = true := by
    simp only [decide_eq_true_eq]
    omega
  simp [hlast, List.replicate_succ]

/-- Witness for `earlyStop_const_seq` at tolerance 3, min_delta 0 and
constant loss 1. -/
theorem earlyStop_const_seq_witness :
    runOutputs (mkEarlyStopping 3 0) (List.replicate 4 (1 : ℚ)) =
      List.replicate 3 false ++ [true] :=
  earlyStop_const_seq 3 0 1 (by norm_num) (by norm_num)

/-! ## C6: strictly decreasing sequences -/

/-- Auxiliary induction: if `min_delta ≤ 0`, the first loss of the
sequence improves on the current best, and the sequence is strictly
decreasing, then no call of the run returns `True`. -/
theorem runOutputs_improving :
    ∀ (vs : List ℚ) (s : EarlyStopping), s.min_delta ≤ 0 →
      (∀ v, vs.head? = some v →
        ltInf (v + s.min_delta) s.min_validation_loss = true) →
      vs.Chain' (fun a b => b < a) →
      (runOutputs s vs).any (fun b => b) = false := by
  intro vs
  induction vs with
  | nil => intro s _ _ _; simp [runOutputs_nil]
  | cons v vs ih =>
    intro s hδ hfirst hchain
    have h1 := hfirst v rfl
    rw [runOutputs_cons, early_stop_check_improve s v h1]
    rw [List.chain'_cons'] at hchain
    simp only [List.any_cons, Bool.false_or]
    apply ih
    · exact hδ
    · intro w hw
      have hlt : w < v := hchain.1 w hw
      simp only [ltInf, decide_eq_true_eq]
      linarith
    · exact hchain.2

/-- C6 counterexample: the claim as stated is false.  With min_delta 1
and tolerance 1, the strictly decreasing losses `[2, 3/2]` raise the
stop signal on the second call, because the improvement from 2 to 3/2
is smaller than `min_delta`. -/
theorem earlyStop_decreasing_counterexample :
    ((3 : ℚ)/2 < 2) ∧
    runOutputs (mkEarlyStopping 1 1) [2, 3/2] = [false, true] := by
  constructor
  · norm_num
  · norm_num [runOutputs, runEarly, early_stop_check, mkEarlyStopping, ltInf,
      geInf]

/-- C6 amended: for every strictly decreasing sequence of validation
losses fed from the initial state of an instance whose `min_delta` is
nonpositive (all instances in the repository use `min_delta = 0`), no
call of `early_stop_check` ever returns `True`. -/
theorem earlyStop_decreasing (t : Nat) (δ : ℚ) (hδ : δ ≤ 0) (vs : List ℚ)
    (hdec : vs.Chain' (fun a b => b < a)) :
    (runOutputs (mkEarlyStopping t δ) vs).any (fun b => b) = false := by
  apply runOutputs_improving vs (mkEarlyStopping t δ) hδ _ hdec
  intro v _
  rfl

/-- Witness for `earlyStop_decreasing` on the decreasing losses
`[3, 2, 1]` with tolerance 1. -/
theorem earlyStop_decreasing_witness :
    (runOutputs (mkEarlyStopping 1 0) [3, 2, 1]).any (fun b => b) = false :=
  earlyStop_decreasing 1 0 (by norm_num) [3, 2, 1]
    (by norm_num [List.chain'_cons, List.chain'_singleton])

/-! ## C9: implicit invariants of the EarlyStopping state -/

/-- Whether a call of `early_stop_check` on state `s` with loss `v`
takes the improvement branch. -/
def improveFlag (s : EarlyStopping) (v : ℚ) : Bool :=
  ltInf (v + s.min_delta) s.min_validation_loss

/-- The improvement flags of the successive calls of a run. -/
def improveFlags : EarlyStopping → List ℚ → List Bool
  | _, [] => []
  | s, v :: vs => improveFlag s v :: improveFlags (early_stop_check s v).2 vs

/-- The number of consecutive non-improving calls at the end of a run:
the length of the trailing block of `false` improvement flags. -/
def countSinceImprove (flags : List Bool) : Nat :=
  (flags.reverse.takeWhile (fun b => !b)).length

/-- Folding the counter discipline over the improvement flags: reset to
0 at each improvement, increment otherwise. -/
def countAfter (c0 : Nat) (flags : List Bool) : Nat :=
  flags.foldl (fun acc b => if b then 0 else acc + 1) c0

/-- One call updates the counter to 0 on improvement and increments it
otherwise. -/
theorem early_stop_check_counter (s : EarlyStopping) (v : ℚ) :
    (early_stop_check s v).2.counter =
      if improveFlag s v then 0 else s.counter + 1 := by
  obtain ⟨t, δ, c, m⟩ := s
  by_cases h : improveFlag ⟨t, δ, c, m⟩ v
  · rw [early_stop_check_improve ⟨t, δ, c, m⟩ v h]
    simp [h]
  · have hf : improveFlag ⟨t, δ, c, m⟩ v = false := by
      simpa using h
    cases m with
    | none => simp [improveFlag, ltInf] at hf
    | some y =>
      have hy : y ≤ v + δ := by
        have := of_decide_eq_false hf
        exact le_of_not_lt this
      rw [early_stop_check_nonimprove t c δ v y hy]
      simp [hf]

/-- The improvement branch leaves the best loss untouched only through
the counter field; here we record the full state shape of a run's
counter: the final counter is the fold of the counter discipline over
the improvement flags of the run. -/
theorem runState_counter :
    ∀ (vs : List ℚ) (s : EarlyStopping),
      (runState s vs).counter = countAfter s.counter (improveFlags s vs) := by
  intro vs
  induction vs with
  | nil => intro s; rfl
  | cons v vs ih =>
    intro s
    rw [runState_cons, ih, improveFlags]
    show countAfter (early_stop_check s v).2.counter (improveFlags (early_stop_check s v).2 vs) =
      countAfter (if improveFlag s v then 0 else s.counter + 1)
        (improveFlags (early_stop_check s v).2 vs)
    rw [early_stop_check_counter]

/-- Starting from counter 0, the counter fold computes exactly the
length of the trailing block of non-improving flags. -/
theorem countAfter_zero_eq (flags : List Bool) :
    countAfter 0 flags = countSinceImprove flags := by
  induction flags using List.reverseRecOn with
  | nil => rfl
  | append_singleton l b ih =>
    rw [countAfter, List.foldl_append]
    cases b with
    | true =>
      simp [countSinceImprove, List.takeWhile_cons]
    | false =>
      simp only [List.foldl_cons, List.foldl_nil, if_neg Bool.false_ne_true]
      rw [show List.foldl (fun acc b => if b = true then 0 else acc + 1) 0 l =
            countAfter 0 l from rfl, ih]
      simp [countSinceImprove, List.takeWhile_cons]

/-- C9 counterexample: with a negative `min_delta` the recorded best
loss can increase.  With min_delta −1, feeding 5 then 11/2 from the
initial state raises the recorded best from 5 to 11/2. -/
theorem earlyStop_invariant_counterexample :
    (runState (mkEarlyStopping 3 (-1)) [5]).min_validation_loss = some 5 ∧
    (runState (mkEarlyStopping 3 (-1)) [5, 11/2]).min_validation_loss =
      some (11/2) ∧
    (5 : ℚ) < 11/2 := by
  refine ⟨?_, ?_, by norm_num⟩ <;>
    norm_num [runState, runEarly, early_stop_check, mkEarlyStopping, ltInf,
      geInf]

/-- C9 amended: provided `min_delta` is nonnegative (all instances in
the repository use 0), every call either leaves `min_validation_loss`
unchanged or lowers it strictly to the newly seen loss; and, across
every sequence of calls from construction, the counter equals the number
of consecutive non-improving calls since the last improvement (or since
construction, when no call improved). -/
theorem earlyStop_invariants :
    (∀ (s : EarlyStopping) (v : ℚ), 0 ≤ s.min_delta →
      ((early_stop_check s v).2.min_validation_loss = s.min_validation_loss ∨
        ((early_stop_check s v).2.min_validation_loss = some v ∧
          ltInf v s.min_validation_loss = true))) ∧
    (∀ (t : Nat) (δ : ℚ) (vs : List ℚ),
      (runState (mkEarlyStopping t δ) vs).counter =
        countSinceImprove (improveFlags (mkEarlyStopping t δ) vs)) := by
  constructor
  · intro s v hδ
    obtain ⟨t, δ, c, m⟩ := s
    by_cases h : ltInf (v + δ) m = true
    · right
      refine ⟨by rw [early_stop_check_improve ⟨t, δ, c, m⟩ v h], ?_⟩
      cases m with
      | none => rfl
      | some y =>
        have hvy : v + δ < y := of_decide_eq_true h
        simp only [ltInf, decide_eq_true_eq]
        linarith
    · left
      have hf : ltInf (v + δ) m = false := by simpa using h
      cases m with
      | none => simp [ltInf] at hf
      | some y =>
        have hy : y ≤ v + δ := by
          have := of_decide_eq_false hf
          exact le_of_not_lt this
        rw [early_stop_check_nonimprove t c δ v y hy]
  · intro t δ vs
    rw [runState_counter vs (mkEarlyStopping t δ)]
    exact countAfter_zero_eq (improveFlags (mkEarlyStopping t δ) vs)

/-- Witness for `earlyStop_invariants`: the per-call disjunct at a
concrete improving call. -/
theorem earlyStop_invariants_witness :
    (early_stop_check ⟨3, 0, 0, some 2⟩ 1).2.min_validation_loss = some 2 ∨
      ((early_stop_check ⟨3, 0, 0, some 2⟩ 1).2.min_validation_loss = some 1 ∧
        ltInf 1 (some 2) = true) :=
  earlyStop_invariants.1 ⟨3, 0, 0, some 2⟩ 1 (by norm_num)

/-! ## Checkpointing (simple_cnn.py lines 268-291, soph_cnn.py lines
216-239; the two scripts contain the identical branch
`if val_acc > best_val_acc: best_val_acc = val_acc; torch.save(...)`). -/

/-- The accuracy-gated checkpoint branch of the epoch loop, iterated
over the per-epoch validation accuracies.  For each epoch it returns
whether the best-model artifact was overwritten in that epoch, and it
threads the recorded best accuracy `best_val_acc` through the run.  The
loop is entered with `best_val_acc = 0.0`. -/
def checkpointLoop (best : ℚ) : List ℚ → List Bool × ℚ
  | [] => ([], best)
  | acc :: rest =>
    if best < acc then
      let r := checkpointLoop acc rest
      (true :: r.1, r.2)
    else
      let r := checkpointLoop best rest
      (false :: r.1, r.2)

theorem checkpointLoop_length :
    ∀ (accs : List ℚ) (best : ℚ),
      ((checkpointLoop best accs).1).length = accs.length := by
  intro accs
  induction accs with
  | nil => intro best; rfl
  | cons a rest ih =>
    intro best
    by_cases h : best < a <;> simp [checkpointLoop, h, ih]

/-- The recorded best accuracy after the run is the maximum of its
initial value and all accuracies seen. -/
theorem checkpointLoop_best :
    ∀ (accs : List ℚ) (best : ℚ),
      (checkpointLoop best accs).2 = accs.foldl max best := by
  intro accs
  induction accs with
  | nil => intro best; rfl
  | cons a rest ih =>
    intro best
    by_cases h : best < a
    · rw [List.foldl_cons, max_eq_right (le_of_lt h)]
      simp [checkpointLoop, h, ih]
    · rw [List.foldl_cons, max_eq_left (not_lt.mp h)]
      simp [checkpointLoop, h, ih]

/-- The write flag of epoch `i` is the strict comparison of that
epoch's accuracy against the running maximum over the earlier epochs
(and the initial value). -/
theorem checkpointLoop_flag :
    ∀ (accs : List ℚ) (best : ℚ) (i : Nat) (h2 : i < accs.length)
      (h1 : i < ((checkpointLoop best accs).1).length),
      ((checkpointLoop best accs).1).get ⟨i, h1⟩ =
        decide ((accs.take i).foldl max best < accs.get ⟨i, h2⟩) := by
  intro accs
  induction accs with
  | nil => intro best i h2 h1; simp at h2
  | cons a rest ih =>
    intro best i h2 h1
    cases i with
    | zero =>
      by_cases h : best < a <;> simp [checkpointLoop, h]
    | succ n =>
      have hn2 : n < rest.length := by simpa using h2
      by_cases h : best < a
      · have hstep : (checkpointLoop best (a :: rest)).1 =
            true :: (checkpointLoop a rest).1 := by
          simp [checkpointLoop, h]
        have hn1 : n < ((checkpointLoop a rest).1).length := by
          rw [checkpointLoop_length]; exact hn2
        rw [List.get_of_eq hstep]
        rw [List.take_succ_cons, List.foldl_cons, max_eq_right (le_of_lt h)]
        simp only [List.get_cons_succ]
        exact ih a n hn2 hn1
      · have hstep : (checkpointLoop best (a :: rest)).1 =
            false :: (checkpointLoop best rest).1 := by
          simp [checkpointLoop, h]
        have hn1 : n < ((checkpointLoop best rest).1).length := by
          rw [checkpointLoop_length]; exact hn2
        rw [List.get_of_eq hstep]
        rw [List.take_succ_cons, List.foldl_cons, max_eq_left (not_lt.mp h)]
        simp only [List.get_cons_succ]
        exact ih best n hn2 hn1

/-- C3: in the accuracy-gated variants, starting from the initial
`best_val_acc = 0.0`, the checkpoint of epoch `i` is written if and only
if that epoch's validation accuracy strictly exceeds the maximum
accuracy recorded so far, and the recorded maximum after the run is the
maximum of 0 and all the accuracies. -/
theorem checkpoint_gate (accs : List ℚ) :
    (∀ (i : Nat) (h2 : i < accs.length)
      (h1 : i < ((checkpointLoop 0 accs).1).length),
      ((checkpointLoop 0 accs).1).get ⟨i, h1⟩ =
        decide ((accs.take i).foldl max 0 < accs.get ⟨i, h2⟩)) ∧
    (checkpointLoop 0 accs).2 = accs.foldl max 0 :=
  ⟨fun i h2 h1 => checkpointLoop_flag accs 0 i h2 h1,
    checkpointLoop_best accs 0⟩

/-- Witness for `checkpoint_gate` at the accuracies `[1, 2, 1]` and
epoch 1. -/
theorem checkpoint_gate_witness :
    ((checkpointLoop 0 [1, 2, 1]).1).get
        ⟨1, by rw [checkpointLoop_length]; norm_num⟩ =
      decide ((([1, 2, 1] : List ℚ).take 1).foldl max 0 <
        ([1, 2, 1] : List ℚ).get ⟨1, by norm_num⟩) :=
  (checkpoint_gate [1, 2, 1]).1 1 (by norm_num)
    (by rw [checkpointLoop_length]; norm_num)

/-! ## C10: checkpoint never written when accuracy stays at zero -/

/-- Whether the best-model artifact was written at least once during
training: some epoch's write flag is set. -/
def bestModelSaved (accs : List ℚ) : Bool :=
  ((checkpointLoop 0 accs).1).any (fun b => b)

/-- Modelled from the spec: eval_cifar100.evaluate_cifar100_test begins
with `torch.load` of the best-model artifact; on a fresh run the
artifact file exists if and only if some checkpoint write occurred
during training (the repository contains no pre-existing artifact), and
the load fails exactly when the file is absent. -/
def evalCifar100LoadFails (accs : List ℚ) : Bool :=
  !(bestModelSaved accs)

theorem checkpointLoop_any :
    ∀ (accs : List ℚ) (best : ℚ),
      (((checkpointLoop best accs).1).any (fun b => b) = true ↔
        ∃ a ∈ accs, best < a) := by
  intro accs
  induction accs with
  | nil => intro best; simp [checkpointLoop]
  | cons a rest ih =>
    intro best
    by_cases h : best < a
    · simp only [checkpointLoop, if_pos h, List.any_cons]
      constructor
      · intro _; exact ⟨a, List.mem_cons_self a rest, h⟩
      · intro _; simp
    · simp only [checkpointLoop, if_neg h, List.any_cons]
      rw [show ((false : Bool) || ((checkpointLoop best rest).1).any (fun b => b)) =
            ((checkpointLoop best rest).1).any (fun b => b) from Bool.false_or _]
      rw [ih best]
      constructor
      · rintro ⟨x, hx, hbx⟩
        exact ⟨x, List.mem_cons_of_mem a hx, hbx⟩
      · rintro ⟨x, hx, hbx⟩
        rcases List.mem_cons.mp hx with hxa | hxr
        · exact absurd (hxa ▸ hbx) h
        · exact ⟨x, hxr, hbx⟩

/-- C10: if every epoch's validation accuracy equals 0, the checkpoint
file is never written and the evaluation stage's load of the best-model
artifact fails; and the artifact is written at least once if and only if
some epoch attains strictly positive validation accuracy. -/
theorem checkpoint_zero_accuracy (accs : List ℚ) :
    ((∀ a ∈ accs, a = 0) →
      bestModelSaved accs = false ∧ evalCifar100LoadFails accs = true) ∧
    (bestModelSaved accs = true ↔ ∃ a ∈ accs, 0 < a) := by
  have hany := checkpointLoop_any accs 0
  constructor
  · intro hz
    have hno : ¬ ∃ a ∈ accs, (0 : ℚ) < a := by
      rintro ⟨a, ha, hpos⟩
      rw [hz a ha] at hpos
      exact lt_irrefl 0 hpos
    have hfalse : bestModelSaved accs = false :=
      Bool.eq_false_iff.mpr (fun htrue => hno (hany.mp htrue))
    refine ⟨hfalse, ?_⟩
    rw [evalCifar100LoadFails, hfalse]
    rfl
  · exact hany

/-- Witness for `checkpoint_zero_accuracy` on the all-zero accuracy
run `[0, 0]`. -/
theorem checkpoint_zero_accuracy_witness :
    bestModelSaved [0, 0] = false ∧ evalCifar100LoadFails [0, 0] = true :=
  (checkpoint_zero_accuracy [0, 0]).1 (by norm_num)

/-! ## The 80/20 train/validation split (simple_cnn.py lines 207-209,
soph_cnn.py lines 167-169, transfer_cnn.py lines 181-183; the three
scripts contain the identical code
`train_size = int(0.8 * len(trainset)); val_size = len(trainset) - train_size`). -/

/-- Size of the training part: `int(0.8 * n)`, the floor of the exact
product since `n` is nonnegative. -/
def train_size (n : Nat) : Nat := (⌊(0.8 : ℚ) * n⌋).toNat

/-- Size of the validation part: `n - train_size n`. -/
def val_size (n : Nat) : Nat := n - train_size n

theorem train_size_le (n : Nat) : train_size n ≤ n := by
  have h0 : (0 : ℚ) ≤ (n : ℚ) := Nat.cast_nonneg n
  have h1 : (0.8 : ℚ) * n ≤ (n : ℚ) := by nlinarith
  have h2 : ⌊(0.8 : ℚ) * n⌋ ≤ ⌊(n : ℚ)⌋ := Int.floor_le_floor h1
  rw [Int.floor_natCast] at h2
  unfold train_size
  omega

/-- C7: modelling torch.utils.data.random_split as splitting a
permutation `p` of the indices `0 .. n-1` at position `train_size n`
(Modelled from the spec: random_split shuffles the indices of the
dataset and partitions them into consecutive groups of the requested
lengths; the library itself is external to the repository).  The two
parts have sizes `train_size n = int(0.8 * n)` and
`val_size n = n - train_size n`, are disjoint, and their sizes sum to
`n`.  The identical split code appears in all three script variants. -/
theorem split_80_20 (n : Nat) (p : List Nat) (hp : p.Perm (List.range n)) :
    (p.take (train_size n)).length = train_size n ∧
    (p.drop (train_size n)).length = val_size n ∧
    List.Disjoint (p.take (train_size n)) (p.drop (train_size n)) ∧
    (p.take (train_size n)).length + (p.drop (train_size n)).length = n := by
  have hlen : p.length = n := by rw [hp.length_eq, List.length_range]
  have hts : train_size n ≤ n := train_size_le n
  have hnodup : p.Nodup := hp.nodup_iff.mpr (List.nodup_range n)
  refine ⟨?_, ?_, ?_, ?_⟩
  · rw [List.length_take, hlen]
    omega
  · rw [List.length_drop, hlen]
    rfl
  · exact List.disjoint_take_drop hnodup (le_refl _)
  · rw [List.length_take, List.length_drop, hlen]
    omega

/-- Witness for `split_80_20` at the identity permutation of 5
indices. -/
theorem split_80_20_witness :
    ((List.range 5).take (train_size 5)).length = train_size 5 ∧
    ((List.range 5).drop (train_size 5)).length = val_size 5 ∧
    List.Disjoint ((List.range 5).take (train_size 5))
      ((List.range 5).drop (train_size 5)) ∧
    ((List.range 5).take (train_size 5)).length +
      ((List.range 5).drop (train_size 5)).length = 5 :=
  split_80_20 5 (List.range 5) (List.Perm.refl _)

/-! ## Preprocessing transform pipelines (transfer_cnn.py lines
151-170, soph_cnn.py lines 137-156, simple_cnn.py lines 177-193) -/

/-- A preprocessing step of a torchvision Compose pipeline, as used by
the three scripts. -/
inductive TStep where
  | toTensor : TStep
  | normalize : List ℚ → List ℚ → TStep
  | randomHorizontalFlip : TStep
  | randomRotation : ℚ → TStep
deriving DecidableEq

/-- Whether a step consumes randomness (applies random augmentation). -/
def isRandomStep : TStep → Bool
  | .randomHorizontalFlip => true
  | .randomRotation _ => true
  | .toTensor => false
  | .normalize _ _ => false

/-- An image, modelled as a grid of rational pixel values of a single
channel (the channel structure is irrelevant to the claims about the
pipelines). -/
abbrev Image := List (List ℚ)

/-- Horizontal flip: each pixel row is reversed. -/
def hflip (img : Image) : Image := img.map List.reverse

/-- Half-turn of the grid, used as the representative nontrivial grid
motion produced by a nonzero rotation angle.  Modelled from the spec:
torchvision RandomRotation is an external utility; the only facts the
claims use are that it draws its angle from the randomness source and
that angle 0 leaves the image unchanged. -/
def rotate180 (img : Image) : Image := (img.map List.reverse).reverse

/-- Semantics of one step.  A step receives the image and the stream of
random draws (each a rational in `[0, 1]`) and returns the transformed
image together with the unconsumed part of the stream.  Deterministic
steps consume nothing.  Modelled from the spec for the external
torchvision utilities: ToTensor scales pixel values into `[0, 1]`;
Normalize subtracts the (first channel's) mean and divides by the
standard deviation; RandomHorizontalFlip flips when its draw is below
the default probability 1/2; RandomRotation(d) rotates by an angle
drawn uniformly from `[-d, d]`. -/
def applyStep : TStep → Image → List ℚ → Image × List ℚ
  | .toTensor, img, r =>
    (img.map (fun row => row.map (fun x => x / 255)), r)
  | .normalize mean sd, img, r =>
    (img.map (fun row => row.map (fun x => (x - mean.headD 0) / sd.headD 1)), r)
  | .randomHorizontalFlip, img, r =>
    ((if r.headD 1 < 1/2 then hflip img else img), r.tail)
  | .randomRotation d, img, r =>
    (if -d + r.headD (1/2) * (2 * d) = 0 then img else rotate180 img, r.tail)

/-- Running a Compose pipeline left to right. -/
def runPipeline : List TStep → Image → List ℚ → Image × List ℚ
  | [], img, r => (img, r)
  | t :: ts, img, r =>
    let s := applyStep t img r
    runPipeline ts s.1 s.2

/-- The image produced by a pipeline on an image under a randomness
stream. -/
def applyPipeline (ts : List TStep) (img : Image) (r : List ℚ) : Image :=
  (runPipeline ts img r).1

/-- transform_train of transfer_cnn.py: ToTensor, Normalize with the
CIFAR-100 statistics, RandomHorizontalFlip, RandomRotation(15). -/
def transform_train_transfer : List TStep :=
  [.toTensor,
   .normalize [0.5071, 0.4867, 0.4408] [0.2675, 0.2565, 0.2761],
   .randomHorizontalFlip,
   .randomRotation 15]

/-- transform_test of transfer_cnn.py: ToTensor and Normalize only. -/
def transform_test_transfer : List TStep :=
  [.toTensor,
   .normalize [0.5071, 0.4867, 0.4408] [0.2675, 0.2565, 0.2761]]

/-- transform_train of soph_cnn.py (same steps as transfer_cnn.py). -/
def transform_train_soph : List TStep :=
  [.toTensor,
   .normalize [0.5071, 0.4867, 0.4408] [0.2675, 0.2565, 0.2761],
   .randomHorizontalFlip,
   .randomRotation 15]

/-- transform_test of soph_cnn.py. -/
def transform_test_soph : List TStep :=
  [.toTensor,
   .normalize [0.5071, 0.4867, 0.4408] [0.2675, 0.2565, 0.2761]]

/-- transform_train of simple_cnn.py: ToTensor and Normalize only, no
random augmentation. -/
def transform_train_simple : List TStep :=
  [.toTensor,
   .normalize [0.4914, 0.4822, 0.4465] [0.2023, 0.1994, 0.2010]]

/-- transform_test of simple_cnn.py. -/
def transform_test_simple : List TStep :=
  [.toTensor,
   .normalize [0.4914, 0.4822, 0.4465] [0.2023, 0.1994, 0.2010]]

/-- The transform actually applied to validation samples of
transfer_cnn.py: the valset is produced by random_split of the trainset
(line 183), and the trainset was constructed with transform_train (line
176), so validation samples are preprocessed by transform_train. -/
def val_transform_transfer : List TStep := transform_train_transfer

/-- The transform actually applied to validation samples of
soph_cnn.py (valset split from the trainset built with
transform_train). -/
def val_transform_soph : List TStep := transform_train_soph

/-- The transform actually applied to validation samples of
simple_cnn.py (valset split from the trainset built with
transform_train, which is deterministic in this variant). -/
def val_transform_simple : List TStep := transform_train_simple

/-- A pipeline with no random step produces the same image under any
two randomness streams. -/
theorem pipeline_no_random_deterministic :
    ∀ (ts : List TStep), (∀ t ∈ ts, isRandomStep t = false) →
      ∀ (img : Image) (r1 r2 : List ℚ),
        applyPipeline ts img r1 = applyPipeline ts img r2 := by
  intro ts
  induction ts with
  | nil => intro _ img r1 r2; rfl
  | cons t ts ih =>
    intro hall img r1 r2
    have ht := hall t (List.mem_cons_self t ts)
    have htail : ∀ u ∈ ts, isRandomStep u = false :=
      fun u hu => hall u (List.mem_cons_of_mem t hu)
    cases t with
    | toTensor =>
      simpa [applyPipeline, runPipeline, applyStep] using
        ih htail (img.map (fun row => row.map (fun x => x / 255))) r1 r2
    | normalize mean sd =>
      simpa [applyPipeline, runPipeline, applyStep] using
        ih htail
          (img.map (fun row => row.map (fun x => (x - mean.headD 0) / sd.headD 1)))
          r1 r2
    | randomHorizontalFlip => simp [isRandomStep] at ht
    | randomRotation d => simp [isRandomStep] at ht

/-- The test pipelines of the three scripts, and the validation
pipeline of simple_cnn.py, are deterministic: none of their steps
consumes randomness. -/
theorem test_transforms_deterministic :
    ∀ (img : Image) (r1 r2 : List ℚ),
      applyPipeline transform_test_transfer img r1 =
        applyPipeline transform_test_transfer img r2 ∧
      applyPipeline transform_test_soph img r1 =
        applyPipeline transform_test_soph img r2 ∧
      applyPipeline transform_test_simple img r1 =
        applyPipeline transform_test_simple img r2 ∧
      applyPipeline val_transform_simple img r1 =
        applyPipeline val_transform_simple img r2 := by
  intro img r1 r2
  refine ⟨?_, ?_, ?_, ?_⟩ <;>
    apply pipeline_no_random_deterministic _ _ img r1 r2 <;>
    intro t ht <;>
    fin_cases ht <;> rfl

/-- C2 is violated by the code: the transform applied to validation
samples of transfer_cnn.py is transform_train, which flips the sample
when the flip draw is below 1/2.  On the one-row image `[[0, 255]]`,
the randomness streams `[0, 1/2]` (flip, rotate by angle 0) and
`[1, 1/2]` (no flip, rotate by angle 0) give different preprocessed
outputs, so the validation preprocessing is not deterministic. -/
theorem val_transform_not_deterministic :
    applyPipeline val_transform_transfer [[0, 255]] [0, 1/2] ≠
      applyPipeline val_transform_transfer [[0, 255]] [1, 1/2] := by
  norm_num [applyPipeline, runPipeline, applyStep, val_transform_transfer,
    transform_train_transfer, hflip, rotate180]

/-! ## The validate function (simple_cnn.py lines 111-140,
transfer_cnn.py lines 89-117, soph_cnn.py lines 71-100; the loop
body is the same in the three scripts). -/

/-- Model state threaded through the loops: the parameter store and the
training-mode flag toggled by model.train() / model.eval().  The
network's forward computation lives in the external library; it enters
the embedding as an explicit function of the parameters. -/
structure TorchModel (P : Type) where
  params : P
  training : Bool

/-- The per-epoch accumulators of the validation loop. -/
structure RunningMetrics where
  running_loss : ℚ
  correct : Nat
  total : Nat

/-- Index of the first maximal score, as produced by
`torch.max(outputs.data, 1)`. -/
def argmaxAux : ℚ → Nat → Nat → List ℚ → Nat
  | _, bi, _, [] => bi
  | best, bi, i, x :: xs =>
    if best < x then argmaxAux x i (i + 1) xs else argmaxAux best bi (i + 1) xs

/-- Argmax over a list of class scores (0 on an empty list). -/
def argmaxIdx : List ℚ → Nat
  | [] => 0
  | x :: xs => argmaxAux x 0 1 xs

/-- The per-sample outputs of the model on a batch of (input, label)
pairs. -/
def batchOutputs {P I : Type} (forward : P → I → List ℚ) (p : P)
    (batch : List (I × Nat)) : List (List ℚ) :=
  batch.map (fun s => forward p s.1)

/-- The labels of a batch. -/
def batchLabels {I : Type} (batch : List (I × Nat)) : List Nat :=
  batch.map Prod.snd

/-- The scalar loss of one batch, `criterion(outputs, labels)`. -/
def batchLoss {P I : Type} (forward : P → I → List ℚ)
    (criterion : List (List ℚ) → List Nat → ℚ) (p : P)
    (batch : List (I × Nat)) : ℚ :=
  criterion (batchOutputs forward p batch) (batchLabels batch)

/-- The number of argmax predictions of one batch that equal the
labels, `predicted.eq(labels).sum().item()`. -/
def batchCorrect {P I : Type} (forward : P → I → List ℚ) (p : P)
    (batch : List (I × Nat)) : Nat :=
  (((batchOutputs forward p batch).map argmaxIdx).zip
    (batchLabels batch)).countP (fun q => q.1 == q.2)

/-- The body of the validation loop for one batch: accumulate the batch
loss, the correct count and the sample count.  No parameter is
written. -/
def validateBatch {P I : Type} (forward : P → I → List ℚ)
    (criterion : List (List ℚ) → List Nat → ℚ) (p : P)
    (m : RunningMetrics) (batch : List (I × Nat)) : RunningMetrics :=
  let outputs := batchOutputs forward p batch
  let labels := batchLabels batch
  let loss := criterion outputs labels
  let predicted := outputs.map argmaxIdx
  { running_loss := m.running_loss + loss,
    correct := m.correct + ((predicted.zip labels).countP (fun q => q.1 == q.2)),
    total := m.total + labels.length }

/-- The validate function: switch the model to evaluation mode, fold
the loop body over the batches of the loader under no_grad, and return
`(running_loss / len(valloader), 100 * correct / total)` together with
the model as the call leaves it. -/
def validate {P I D : Type} (forward : P → I → List ℚ)
    (model : TorchModel P) (valloader : List (List (I × Nat)))
    (criterion : List (List ℚ) → List Nat → ℚ) (device : D) :
    (ℚ × ℚ) × TorchModel P :=
  let modelEval := { model with training := false }
  let final := valloader.foldl
    (validateBatch forward criterion modelEval.params) ⟨0, 0, 0⟩
  ((final.running_loss / valloader.length,
    100 * (final.correct : ℚ) / (final.total : ℚ)), modelEval)

/-- Folding the loop body accumulates exactly the sums of the per-batch
losses, correct counts and batch sizes. -/
theorem validate_fold {P I : Type} (forward : P → I → List ℚ)
    (criterion : List (List ℚ) → List Nat → ℚ) (p : P) :
    ∀ (loader : List (List (I × Nat))) (m0 : RunningMetrics),
      loader.foldl (validateBatch forward criterion p) m0 =
        ⟨m0.running_loss + (loader.map (batchLoss forward criterion p)).sum,
         m0.correct + (loader.map (batchCorrect forward p)).sum,
         m0.total + (loader.map List.length).sum⟩ := by
  intro loader
  induction loader with
  | nil => intro m0; cases m0; simp
  | cons b rest ih =>
    intro m0
    rw [List.foldl_cons, ih]
    have hb : validateBatch forward criterion p m0 b =
        ⟨m0.running_loss + batchLoss forward criterion p b,
         m0.correct + batchCorrect forward p b,
         m0.total + b.length⟩ := by
      simp [validateBatch, batchLoss, batchCorrect, batchLabels,
        List.length_map]
    rw [hb]
    simp [add_assoc]

/-- C8: validate leaves the model parameters unchanged (no gradient
computation or optimizer step is modelled because none occurs under
no_grad), and returns the mean of the per-batch losses over the number
of batches together with the accuracy percentage
`100 * correct / total`. -/
theorem validate_frame {P I D : Type} (forward : P → I → List ℚ)
    (criterion : List (List ℚ) → List Nat → ℚ) (model : TorchModel P)
    (valloader : List (List (I × Nat))) (device : D) :
    ((validate forward model valloader criterion device).2).params =
      model.params ∧
    (validate forward model valloader criterion device).1.1 =
      (valloader.map (batchLoss forward criterion model.params)).sum /
        valloader.length ∧
    (validate forward model valloader criterion device).1.2 =
      100 * ((valloader.map (batchCorrect forward model.params)).sum : ℚ) /
        ((valloader.map List.length).sum : ℚ) := by
  have hfold := validate_fold forward criterion model.params valloader ⟨0, 0, 0⟩
  refine ⟨rfl, ?_, ?_⟩ <;> simp [validate, hfold]
